import Mathlib

/-!
Shallow embedding of the dashboard frontend components in
`src/anomaly-detection-app/dashboard/frontend/src/components/AnomalyList.js`
(the `AnomalyList` component and the `LogViewer` component), together with
theorems about the deduplication, notification-send, stream-handling and
filtering behaviour they implement.

React `useState` state is modelled as a record; each handler or effect
becomes a state-transition function.  A network fetch outcome is passed in
as an `Except` value; the outcome of `JSON.parse` on an SSE payload is
passed in as an `Option` value (the parser itself is an external browser
primitive).  JavaScript `Set` objects are modelled as lists of ids with
membership up to `List.contains`.
-/

namespace AnomalyDashboard

/-- A record returned by `fetchAnomalyParams` (`/api/anomalies`): the fields
the component reads are `id`, `timestamp` and `param_value`. -/
structure AnomalyRecord where
  id : Nat
  timestamp : Nat
  param_value : String
deriving DecidableEq, Repr

/-- The two dashboard tabs of the `AnomalyList` component. -/
inductive TabId where
  | anomaly
  | unidentified
deriving DecidableEq, Repr

/-- The Slack status object returned by `getSlackStatus`. -/
structure SlackStatus where
  task_running : Bool
  auto_send_enabled : Bool
  sent_records_count : Nat
deriving DecidableEq, Repr

/-- The `useState` state of the `AnomalyList` component (AnomalyList.js
lines 14-24).  Times are abstract `Nat` timestamps. -/
structure AnomalyListState where
  anomalyParams : List AnomalyRecord
  loading : Bool
  error : Option String
  activeTab : TabId
  retryCount : Nat
  lastCheckTime : Option Nat
  lastDataUpdateTime : Option Nat
  seenRecordIds : List Nat
  slackStatus : Option SlackStatus
  slackSending : Bool
deriving DecidableEq, Repr

/-- JavaScript `new Set([...prev, ...current])`: union of the previous seen
set with the freshly fetched ids, modelled on lists (membership is what
matters). -/
def setUnion (prev current : List Nat) : List Nat :=
  prev ++ current.filter (fun i => !prev.contains i)

/-- `data.filter(item => !seenRecordIds.has(item.id))` (AnomalyList.js
line 44): the fetched records whose id has not been seen. -/
def newRecords (seen : List Nat) (data : List AnomalyRecord) : List AnomalyRecord :=
  data.filter (fun item => !seen.contains item.id)

/-- The `fetchData` function of `AnomalyList` (AnomalyList.js lines 26-73).
`result` is the outcome of the awaited `fetchAnomalyParams` call; `now` is
the clock value used for `new Date()`.  On success with new records (or a
forced update) the display, the seen-id set, the data-update time and the
retry counter are updated; on a rejected fetch the error text is set and
the retry counter is incremented; otherwise the state is left as is.  The
`loading` flag mirrors lines 28-32 and the `finally` block. -/
def fetchData (s : AnomalyListState) (forceUpdate : Bool)
    (result : Except Unit (List AnomalyRecord)) (now : Nat) : AnomalyListState :=
  let s1 := { s with loading := forceUpdate }
  let s2 :=
    match result with
    | Except.ok data =>
      let currentRecordIds := data.map (fun item => item.id)
      let nr := newRecords s1.seenRecordIds data
      if nr.length > 0 ∨ forceUpdate = true then
        { s1 with
            anomalyParams := data
            error := none
            lastDataUpdateTime := some now
            seenRecordIds := setUnion s1.seenRecordIds currentRecordIds
            retryCount := 0 }
      else s1
    | Except.error _ =>
      { s1 with
          error := some "Failed to load parameters. Please try again."
          retryCount := s1.retryCount + 1 }
  if forceUpdate then { s2 with loading := false } else s2

/-- The effect that runs when `activeTab` changes (AnomalyList.js lines
111-116): record the check time, clear the seen-id set, then force a fetch
for the newly selected tab. -/
def tabChange (s : AnomalyListState) (newTab : TabId)
    (result : Except Unit (List AnomalyRecord)) (now : Nat) : AnomalyListState :=
  fetchData
    { s with activeTab := newTab, lastCheckTime := some now, seenRecordIds := [] }
    true result now

/-- One fetch performed by the component: the force flag (`true` for the
initial fetch and the refresh button, `false` for the 10-second interval
poll), the fetch outcome, and the clock value. -/
structure FetchEvent where
  force : Bool
  result : Except Unit (List AnomalyRecord)
  now : Nat

/-- Apply one fetch event to the component state. -/
def stepFetch (s : AnomalyListState) (e : FetchEvent) : AnomalyListState :=
  fetchData s e.force e.result e.now

/-- Run a sequence of fetch events from a given state. -/
def runFetches (s : AnomalyListState) : List FetchEvent → AnomalyListState
  | [] => s
  | e :: rest => runFetches (stepFetch s e) rest

/-- Whether, at state `s`, fetch event `e` counts the id `id` as new: the
event succeeds and some returned record with that id passes the
`!seenRecordIds.has(item.id)` filter of line 44. -/
def countsNew (s : AnomalyListState) (e : FetchEvent) (id : Nat) : Bool :=
  match e.result with
  | Except.ok data => (newRecords s.seenRecordIds data).any (fun r => r.id == id)
  | Except.error _ => false

/-- The trace of is-counted-as-new flags for `id` along a fetch-event
sequence starting at `s`. -/
def newFlags (s : AnomalyListState) (id : Nat) : List FetchEvent → List Bool
  | [] => []
  | e :: rest => countsNew s e id :: newFlags (stepFetch s e) id rest

/-! ### Manual Slack send (syncToSlack and the send button) -/

/-- Events of the manual Slack send machinery: a click on the
"Send New to Slack" button (which carries the current `task_running`
status used by the `disabled` prop), and the completion of an in-flight
`syncToSlack` call (its `finally` block, reached on success and on
failure alike). -/
inductive SlackEv where
  | click (task_running : Bool)
  | complete
deriving DecidableEq, Repr

/-- One step of the send machinery on the `slackSending` flag.  A click is
ignored when the button is disabled (`slackSending || !task_running`,
AnomalyList.js line 200); otherwise `syncToSlack` starts: it sets
`slackSending` before the sink call (line 77) and the second component
records that the sink (`sendNewDataToSlack`) is invoked.  A completion
event is the `finally` block (line 87): it clears the flag and calls no
sink.  Returns (new `slackSending` flag, whether the sink was called). -/
def slackStep (sending : Bool) : SlackEv → Bool × Bool
  | SlackEv.click tr => if sending || !tr then (sending, false) else (true, true)
  | SlackEv.complete => (false, false)

/-- A trace is valid when every completion event corresponds to an
in-flight send (the `finally` block of `syncToSlack` runs exactly for a
started call). -/
def validSlack : Bool → List SlackEv → Bool
  | _, [] => true
  | b, SlackEv.complete :: rest =>
      b && validSlack (slackStep b SlackEv.complete).1 rest
  | b, SlackEv.click tr :: rest =>
      validSlack (slackStep b (SlackEv.click tr)).1 rest

/-- Number of sink calls issued along a trace. -/
def sinkCalls : Bool → List SlackEv → Nat
  | _, [] => 0
  | b, e :: rest =>
      (if (slackStep b e).2 then 1 else 0) + sinkCalls (slackStep b e).1 rest

/-- Number of completion events in a trace. -/
def completions : List SlackEv → Nat
  | [] => 0
  | SlackEv.complete :: rest => completions rest + 1
  | SlackEv.click _ :: rest => completions rest

/-- Final value of the `slackSending` flag after a trace. -/
def runSlack (b : Bool) : List SlackEv → Bool
  | [] => b
  | e :: rest => runSlack (slackStep b e).1 rest

/-! ### Notification channel state and the combined system -/

/-- Modelled from the spec: the Notification Dispatcher's state
(`auto_send_enabled`, `sent_record_ids`, `sent_count`,
`dispatcher_running`) lives in the FastAPI backend, which is not among
the frontend sources; per the spec it is "Mutated only by the
Notification Dispatcher" and satisfies `sent_count == |sent_record_ids|`. -/
structure NotificationState where
  auto_send_enabled : Bool
  sent_record_ids : List Nat
  sent_count : Nat
  dispatcher_running : Bool
deriving DecidableEq, Repr

/-- Modelled from the spec: on a successful send the dispatcher marks
every included id into `sent_record_ids` and updates `sent_count`
atomically with that marking. -/
def markSent (n : NotificationState) (ids : List Nat) : NotificationState :=
  { n with
      sent_record_ids := setUnion n.sent_record_ids ids
      sent_count := (setUnion n.sent_record_ids ids).length }

/-- The two dedup contexts that coexist: the dashboard tab context (client
side, the `AnomalyList` state) and the notification channel context
(server side). -/
structure SystemState where
  dash : AnomalyListState
  notif : NotificationState
deriving Repr

/-- A dashboard tab switch at system level: only the client component
state changes (the tab-change effect calls `fetchSlackStatus`, a read-only
query, and performs no mutation of the dispatcher state). -/
def sysTabChange (sys : SystemState) (newTab : TabId)
    (result : Except Unit (List AnomalyRecord)) (now : Nat) : SystemState :=
  { sys with dash := tabChange sys.dash newTab result now }

/-- A dispatcher send at system level: only the notification channel's
sent-state changes; the dashboard component state is untouched. -/
def sysMarkSent (sys : SystemState) (ids : List Nat) : SystemState :=
  { sys with notif := markSent sys.notif ids }

/-! ### LogViewer: SSE stream handling -/

/-- A log record as parsed from an SSE `log` event payload; the component
reads `timestamp`, `log_level` and `message`. -/
structure LogData where
  timestamp : String
  log_level : String
  message : String
deriving DecidableEq, Repr

/-- An SSE event delivered to the `LogViewer` listeners: a `log` event
carries its raw `data` string and the outcome of `JSON.parse` on it
(`none` when parsing throws); a `ping` keepalive likewise carries its raw
payload and the outcome of parsing it. -/
inductive StreamEvent where
  | logEvent (data : String) (parsed : Option LogData)
  | pingEvent (data : String) (parsed : Option Nat)
deriving Repr

/-- The `useState` state of the `LogViewer` component. -/
structure LogViewerState where
  logs : List LogData
  filter : String
  connectionError : Bool
deriving Repr

/-- The last `n` elements of a list, in order: JavaScript `slice(-n)`. -/
def lastN (n : Nat) (l : List α) : List α := l.drop (l.length - n)

/-- The `log` event listener (AnomalyList.js lines 295-313): an empty
payload is skipped; a payload whose parse throws is caught and skipped;
otherwise the parsed record is appended and only the latest 100 logs are
kept (`[...prevLogs, logData].slice(-100)`). -/
def handleLogEvent (s : LogViewerState) (data : String) (parsed : Option LogData) :
    LogViewerState :=
  if data = "" then s
  else
    match parsed with
    | none => s
    | some d => { s with logs := lastN 100 (s.logs ++ [d]) }

/-- The `ping` event listener (AnomalyList.js lines 316-324): the payload
is parsed first; on success the connection-error indicator is cleared; a
parse failure is caught and nothing changes. -/
def handlePing (s : LogViewerState) (parsed : Option Nat) : LogViewerState :=
  match parsed with
  | some _ => { s with connectionError := false }
  | none => s

/-- Dispatch one SSE event to the matching listener. -/
def processEvent (s : LogViewerState) : StreamEvent → LogViewerState
  | StreamEvent.logEvent d p => handleLogEvent s d p
  | StreamEvent.pingEvent _ p => handlePing s p

/-- Process a sequence of SSE events. -/
def processEvents (s : LogViewerState) : List StreamEvent → LogViewerState
  | [] => s
  | e :: rest => processEvents (processEvent s e) rest

/-- The log records actually delivered by an event sequence: payloads of
`log` events that are non-empty and parse successfully, in order. -/
def deliveredRecords : List StreamEvent → List LogData
  | [] => []
  | StreamEvent.logEvent d (some ld) :: rest =>
      if d = "" then deliveredRecords rest else ld :: deliveredRecords rest
  | StreamEvent.logEvent _ none :: rest => deliveredRecords rest
  | StreamEvent.pingEvent _ _ :: rest => deliveredRecords rest

/-! ### LogViewer: text filter -/

/-- `JSON.stringify` of a log record with the three modelled fields, in
object insertion order. -/
def jsonStringify (d : LogData) : String :=
  "\x7b\"timestamp\":\"" ++ d.timestamp ++ "\",\"log_level\":\"" ++
    d.log_level ++ "\",\"message\":\"" ++ d.message ++ "\"\x7d"

/-- Substring search on character lists: does `pat` occur contiguously? -/
def includesAux (pat : List Char) : List Char → Bool
  | [] => pat.isEmpty
  | c :: t => pat.isPrefixOf (c :: t) || includesAux pat t

/-- JavaScript `hay.includes(pat)`: contiguous substring containment. -/
def strIncludes (hay pat : String) : Bool :=
  includesAux pat.toList hay.toList

/-- The filter applied when rendering the log list (AnomalyList.js lines
376-379): an empty filter keeps everything; otherwise keep the logs whose
JSON serialization contains the filter string case-insensitively. -/
def filterLogs (logs : List LogData) (filter : String) : List LogData :=
  logs.filter (fun log =>
    if filter = "" then true
    else strIncludes (jsonStringify log).toLower filter.toLower)

/-! ## Supporting lemmas -/

/-- Boolean `contains` versus propositional membership. -/
theorem contains_iff (l : List Nat) (i : Nat) : l.contains i = true ↔ i ∈ l :=
  List.elem_iff

/-- Membership in the JS set union, propositional form. -/
theorem mem_setUnion_iff (a b : List Nat) (i : Nat) :
    i ∈ setUnion a b ↔ (i ∈ a ∨ i ∈ b) := by
  simp [setUnion, List.elem_iff, List.mem_append, List.mem_filter]
  tauto

/-- Membership in the JS set union. -/
theorem setUnion_contains_iff (a b : List Nat) (i : Nat) :
    (setUnion a b).contains i = true ↔ (a.contains i = true ∨ b.contains i = true) := by
  rw [contains_iff, contains_iff, contains_iff]
  exact mem_setUnion_iff a b i

/-- Closed form of `fetchData`: the `loading` flag always ends false, and
the three branches are the update branch, the silent no-new-records branch
and the error branch. -/
theorem fetchData_eq (s : AnomalyListState) (force : Bool)
    (r : Except Unit (List AnomalyRecord)) (now : Nat) :
    fetchData s force r now =
      match r with
      | Except.ok data =>
          if (newRecords s.seenRecordIds data).length > 0 ∨ force = true then
            { s with
                loading := false
                anomalyParams := data
                error := none
                lastDataUpdateTime := some now
                seenRecordIds := setUnion s.seenRecordIds (data.map (fun item => item.id))
                retryCount := 0 }
          else { s with loading := false }
      | Except.error _ =>
          { s with
              loading := false
              error := some "Failed to load parameters. Please try again."
              retryCount := s.retryCount + 1 } := by
  cases r <;> cases force <;> simp [fetchData]

/-- The seen-id set never loses an id across any fetch. -/
theorem fetchData_seen_mono (s : AnomalyListState) (force : Bool)
    (r : Except Unit (List AnomalyRecord)) (now : Nat) (i : Nat)
    (h : s.seenRecordIds.contains i = true) :
    (fetchData s force r now).seenRecordIds.contains i = true := by
  rw [fetchData_eq]
  cases r with
  | ok data =>
    dsimp only
    split
    · rw [contains_iff, mem_setUnion_iff]
      exact Or.inl ((contains_iff _ _).mp h)
    · simpa using h
  | error e => simpa using h

/-- An id already seen is never counted as new. -/
theorem countsNew_false_of_seen (s : AnomalyListState) (e : FetchEvent) (id : Nat)
    (h : s.seenRecordIds.contains id = true) :
    countsNew s e id = false := by
  cases e with
  | mk force r now =>
    cases r with
    | ok data =>
      simp only [countsNew, newRecords, List.any_eq_false]
      intro r hr
      rcases List.mem_filter.mp hr with ⟨-, hkeep⟩
      intro hid
      rw [show r.id = id from by simpa using hid] at hkeep
      have hmem : id ∈ s.seenRecordIds := (contains_iff _ _).mp h
      simp [hmem] at hkeep
    | error u => rfl

/-- An id counted as new by a fetch event is in the seen set afterwards. -/
theorem countsNew_seen_after (s : AnomalyListState) (e : FetchEvent) (id : Nat)
    (h : countsNew s e id = true) :
    (stepFetch s e).seenRecordIds.contains id = true := by
  cases e with
  | mk force r now =>
    cases r with
    | ok data =>
      simp only [countsNew] at h
      rcases List.any_eq_true.mp h with ⟨rec, hmem, hid⟩
      have hrec : rec ∈ data := (List.mem_filter.mp hmem).1
      have hnil : (newRecords s.seenRecordIds data).length > 0 :=
        List.length_pos.mpr (List.ne_nil_of_mem hmem)
      simp only [stepFetch, fetchData_eq]
      rw [if_pos (Or.inl hnil)]
      simp only
      rw [setUnion_contains_iff]
      right
      simp only [List.elem_iff, List.mem_map]
      exact ⟨rec, hrec, by simpa using hid⟩
    | error u => exact absurd h (by simp [countsNew])

/-- Once an id is seen, the remaining trace never counts it as new. -/
theorem newFlags_count_zero_of_seen (id : Nat) (evs : List FetchEvent)
    (s : AnomalyListState) (h : s.seenRecordIds.contains id = true) :
    (newFlags s id evs).count true = 0 := by
  induction evs generalizing s with
  | nil => rfl
  | cons e rest ih =>
    have hnext : (stepFetch s e).seenRecordIds.contains id = true :=
      fetchData_seen_mono s e.force e.result e.now id h
    simp [newFlags, List.count_cons, countsNew_false_of_seen s e id h,
      ih (stepFetch s e) hnext]

/-- Along any fetch trace, an id is counted as new at most once. -/
theorem newFlags_count_le_one (id : Nat) (evs : List FetchEvent)
    (s : AnomalyListState) :
    (newFlags s id evs).count true ≤ 1 := by
  induction evs generalizing s with
  | nil => simp [newFlags]
  | cons e rest ih =>
    simp only [newFlags, List.count_cons]
    cases hc : countsNew s e id with
    | false => simpa using ih (stepFetch s e)
    | true =>
      have hseen := countsNew_seen_after s e id hc
      rw [newFlags_count_zero_of_seen id rest (stepFetch s e) hseen]
      simp

/-- Taking the last `n` elements of a list of length at most `n` is the
identity. -/
theorem lastN_eq_self (n : Nat) (l : List α) (h : l.length ≤ n) : lastN n l = l := by
  simp [lastN, Nat.sub_eq_zero_of_le h]

/-- `lastN n` returns at most `n` elements. -/
theorem lastN_length_le (n : Nat) (l : List α) : (lastN n l).length ≤ n := by
  simp [lastN]
  omega

/-- Truncating to the last `n`, appending, and truncating again is the
same as truncating the whole concatenation. -/
theorem lastN_append_lastN (n : Nat) (A B : List α) :
    lastN n (lastN n A ++ B) = lastN n (A ++ B) := by
  simp only [lastN, List.drop_append_eq_append_drop, List.length_append, List.length_drop]
  rw [List.drop_drop]
  congr 1
  · congr 1
    omega
  · congr 1
    omega

/-- The retained log list after any event sequence is the truncation of
the accumulated delivered records to the last 100, provided the starting
buffer already respects the bound. -/
theorem processEvents_logs_eq (evs : List StreamEvent) (s : LogViewerState)
    (h : s.logs.length ≤ 100) :
    (processEvents s evs).logs = lastN 100 (s.logs ++ deliveredRecords evs) := by
  induction evs generalizing s with
  | nil =>
    simp [processEvents, deliveredRecords, lastN_eq_self 100 s.logs h]
  | cons e rest ih =>
    cases e with
    | logEvent d p =>
      by_cases hd : d = ""
      · subst hd
        cases p with
        | none =>
          simpa [processEvents, processEvent, handleLogEvent, deliveredRecords] using ih s h
        | some ld =>
          simpa [processEvents, processEvent, handleLogEvent, deliveredRecords] using ih s h
      · cases p with
        | none =>
          simpa [processEvents, processEvent, handleLogEvent, hd, deliveredRecords] using ih s h
        | some ld =>
          have hlen : (lastN 100 (s.logs ++ [ld])).length ≤ 100 := lastN_length_le _ _
          have ih2 := ih { s with logs := lastN 100 (s.logs ++ [ld]) } hlen
          simp only [processEvents, processEvent, handleLogEvent, if_neg hd] at ih2 ⊢
          rw [ih2]
          simp only [deliveredRecords, if_neg hd]
          rw [lastN_append_lastN, List.append_assoc]
          rfl
    | pingEvent d p =>
      cases p with
      | none =>
        simpa [processEvents, processEvent, handlePing, deliveredRecords] using ih s h
      | some t =>
        have ih2 := ih { s with connectionError := false } (by simpa using h)
        simpa [processEvents, processEvent, handlePing, deliveredRecords] using ih2

/-- In-flight send accounting: along any valid trace, the number of sink
calls issued equals the number of completed sends plus one exactly when a
send is still in flight. -/
theorem slack_invariant (evs : List SlackEv) (b : Bool)
    (h : validSlack b evs = true) :
    sinkCalls b evs + (if b then 1 else 0) =
      completions evs + (if runSlack b evs then 1 else 0) := by
  induction evs generalizing b with
  | nil => cases b <;> simp [sinkCalls, completions, runSlack]
  | cons e rest ih =>
    cases e with
    | complete =>
      have hb : b = true := by
        cases b
        · simp [validSlack] at h
        · rfl
      subst hb
      have h2 : validSlack false rest = true := by
        simpa [validSlack, slackStep] using h
      have hrec := ih false h2
      simp only [sinkCalls, completions, runSlack, slackStep] at hrec ⊢
      by_cases hr : runSlack false rest = true <;> simp [hr] at hrec ⊢ <;> omega
    | click tr =>
      cases hb : (b || !tr) with
      | true =>
        have hs : slackStep b (SlackEv.click tr) = (b, false) := by
          simp [slackStep, hb]
        have h2 : validSlack b rest = true := by
          simpa [validSlack, hs] using h
        have hrec := ih b h2
        simp only [sinkCalls, completions, runSlack, hs]
        by_cases hr : runSlack b rest = true <;> cases b <;> simp_all
      | false =>
        have hbf : b = false := by
          cases b
          · rfl
          · simp at hb
        have htr : tr = true := by
          cases tr
          · subst hbf
            simp at hb
          · rfl
        subst hbf
        subst htr
        have hs : slackStep false (SlackEv.click true) = (true, true) := by
          simp [slackStep]
        have h2 : validSlack true rest = true := by
          simpa [validSlack, hs] using h
        have hrec := ih true h2
        simp only [sinkCalls, completions, runSlack, hs]
        by_cases hr : runSlack true rest = true <;> simp [hr] at hrec ⊢ <;> omega

/-- `includesAux` decides contiguous substring containment. -/
theorem includesAux_iff (pat l : List Char) :
    includesAux pat l = true ↔ pat <:+: l := by
  induction l with
  | nil =>
    simp [includesAux, List.isEmpty_iff, List.infix_nil]
  | cons c t ih =>
    simp [includesAux, List.infix_cons_iff, ih, List.isPrefixOf_iff_prefix]

/-! ## Claim theorems -/

/-- C1: For every context state and record id, the dedup check reports the
id as new exactly once: a successful fetch returning a not-yet-seen id
counts it as new and adds it to the seen-id set, after that no remaining
fetch trace ever counts it as new again, and along any fetch trace an id
is counted as new at most once. -/
theorem dedup_counts_new_exactly_once (s : AnomalyListState) (id : Nat)
    (data : List AnomalyRecord) (force : Bool) (now : Nat) (evs : List FetchEvent)
    (hunseen : s.seenRecordIds.contains id = false)
    (hfetched : ∃ r ∈ data, r.id = id) :
    countsNew s ⟨force, Except.ok data, now⟩ id = true
    ∧ (stepFetch s ⟨force, Except.ok data, now⟩).seenRecordIds.contains id = true
    ∧ (∀ rest, (newFlags (stepFetch s ⟨force, Except.ok data, now⟩) id rest).count true = 0)
    ∧ (newFlags s id evs).count true ≤ 1 := by
  obtain ⟨r, hr, hrid⟩ := hfetched
  have h1 : countsNew s ⟨force, Except.ok data, now⟩ id = true := by
    simp only [countsNew, newRecords, List.any_eq_true]
    refine ⟨r, List.mem_filter.mpr ⟨hr, ?_⟩, by simp [hrid]⟩
    rw [hrid, hunseen]
    rfl
  have h2 := countsNew_seen_after s ⟨force, Except.ok data, now⟩ id h1
  exact ⟨h1, h2, fun rest => newFlags_count_zero_of_seen id rest _ h2,
    newFlags_count_le_one id evs s⟩

/-- Concrete instance of the dedup exactly-once theorem: id 1 is counted
as new by the fetch that first returns it and is in the seen set
afterwards. -/
theorem dedup_counts_new_exactly_once_witness :
    countsNew ⟨[], true, none, TabId.anomaly, 0, none, none, [], none, false⟩
        ⟨false, Except.ok [⟨1, 5, "x"⟩], 7⟩ 1 = true
    ∧ (stepFetch ⟨[], true, none, TabId.anomaly, 0, none, none, [], none, false⟩
        ⟨false, Except.ok [⟨1, 5, "x"⟩], 7⟩).seenRecordIds.contains 1 = true := by
  have h := dedup_counts_new_exactly_once
    ⟨[], true, none, TabId.anomaly, 0, none, none, [], none, false⟩ 1 [⟨1, 5, "x"⟩]
    false 7 [] rfl ⟨⟨1, 5, "x"⟩, by simp, rfl⟩
  exact ⟨h.1, h.2.1⟩

/-- C2: Per-context dedup state is independent: a dashboard tab switch,
which resets the tab context's seen-id state, leaves the notification
channel's state unchanged; the dispatcher marking ids as sent leaves the
dashboard component state unchanged; and after a tab switch the fresh tab
context's seen set holds exactly the freshly fetched ids, independent of
the previous tab's seen ids. -/
theorem context_state_independent (sys : SystemState) (newTab : TabId)
    (r : Except Unit (List AnomalyRecord)) (now : Nat) (ids : List Nat)
    (data : List AnomalyRecord) :
    (sysTabChange sys newTab r now).notif = sys.notif
    ∧ (sysMarkSent sys ids).dash = sys.dash
    ∧ (∀ i, (tabChange sys.dash newTab (Except.ok data) now).seenRecordIds.contains i =
        (data.map (fun rec => rec.id)).contains i) := by
  refine ⟨rfl, rfl, fun i => ?_⟩
  rw [tabChange, fetchData_eq]
  dsimp only
  rw [if_pos (Or.inr rfl)]
  simp [setUnion]

/-- C3: At most one notification send is ever in flight: a trigger while
the sending flag is set is a no-op (state unchanged, no sink call, nothing
queued); a trigger that does call the sink sets the flag with the call;
only a completion clears the flag; and along any valid event trace the
number of sink calls never exceeds the number of completed sends plus
one. -/
theorem slack_at_most_one_inflight (b tr : Bool) (evs : List SlackEv)
    (hvalid : validSlack false evs = true) :
    slackStep true (SlackEv.click tr) = (true, false)
    ∧ ((slackStep b (SlackEv.click tr)).2 = true →
        b = false ∧ (slackStep b (SlackEv.click tr)).1 = true)
    ∧ (∀ e, (slackStep true e).1 = false → e = SlackEv.complete)
    ∧ sinkCalls false evs ≤ completions evs + 1 := by
  refine ⟨by simp [slackStep], ?_, ?_, ?_⟩
  · intro hcall
    cases b
    · refine ⟨rfl, ?_⟩
      cases tr
      · simp [slackStep] at hcall
      · simp [slackStep]
    · simp [slackStep] at hcall
  · intro e he
    cases e with
    | click tr2 => simp [slackStep] at he
    | complete => rfl
  · have hinv := slack_invariant evs false hvalid
    by_cases hr : runSlack false evs = true <;> simp [hr] at hinv <;> omega

/-- Concrete instance of the at-most-one-send theorem on a trace with a
click during an in-flight send. -/
theorem slack_at_most_one_inflight_witness :
    sinkCalls false
        [SlackEv.click true, SlackEv.click true, SlackEv.complete, SlackEv.click true] ≤
      completions
        [SlackEv.click true, SlackEv.click true, SlackEv.complete, SlackEv.click true] + 1 :=
  (slack_at_most_one_inflight false true
    [SlackEv.click true, SlackEv.click true, SlackEv.complete, SlackEv.click true]
    (by decide)).2.2.2

/-- C4: Within a live context session the seen-id set grows monotonically:
every fetch maps it to a superset, and a fetch taking the update branch
replaces it with exactly the union of the previous set and the fetched
ids. -/
theorem seen_set_monotone (s : AnomalyListState) (force : Bool)
    (r : Except Unit (List AnomalyRecord)) (now : Nat) :
    (∀ i, s.seenRecordIds.contains i = true →
        (fetchData s force r now).seenRecordIds.contains i = true)
    ∧ (∀ data, r = Except.ok data →
        ((newRecords s.seenRecordIds data).length > 0 ∨ force = true) →
        (fetchData s force r now).seenRecordIds =
          setUnion s.seenRecordIds (data.map (fun item => item.id))) := by
  constructor
  · exact fun i h => fetchData_seen_mono s force r now i h
  · intro data hr hcond
    subst hr
    rw [fetchData_eq]
    dsimp only
    rw [if_pos hcond]

/-- Concrete instance of the monotone-growth theorem: the previously seen
id 5 survives the update and the new set is the union. -/
theorem seen_set_monotone_witness :
    (fetchData ⟨[], false, none, TabId.anomaly, 0, none, none, [5], none, false⟩ true
        (Except.ok [⟨2, 0, "y"⟩]) 3).seenRecordIds.contains 5 = true
    ∧ (fetchData ⟨[], false, none, TabId.anomaly, 0, none, none, [5], none, false⟩ true
        (Except.ok [⟨2, 0, "y"⟩]) 3).seenRecordIds =
      setUnion [5] (([⟨2, 0, "y"⟩] : List AnomalyRecord).map (fun item => item.id)) :=
  ⟨(seen_set_monotone ⟨[], false, none, TabId.anomaly, 0, none, none, [5], none, false⟩
      true (Except.ok [⟨2, 0, "y"⟩]) 3).1 5 rfl,
   (seen_set_monotone ⟨[], false, none, TabId.anomaly, 0, none, none, [5], none, false⟩
      true (Except.ok [⟨2, 0, "y"⟩]) 3).2 [⟨2, 0, "y"⟩] rfl (Or.inr rfl)⟩

/-- C5: A periodic (non-forced) poll whose fetched records are all already
seen is a no-op on the displayed state: the record list, the error
indicator, the seen-id set and the last-data-update time are unchanged;
and a non-forced successful poll can change the displayed list only by
returning at least one genuinely new id. -/
theorem poll_all_seen_noop (s : AnomalyListState) (data : List AnomalyRecord) (now : Nat)
    (hall : ∀ r ∈ data, s.seenRecordIds.contains r.id = true) :
    (fetchData s false (Except.ok data) now).anomalyParams = s.anomalyParams
    ∧ (fetchData s false (Except.ok data) now).error = s.error
    ∧ (fetchData s false (Except.ok data) now).seenRecordIds = s.seenRecordIds
    ∧ (fetchData s false (Except.ok data) now).lastDataUpdateTime = s.lastDataUpdateTime
    ∧ (∀ d2 : List AnomalyRecord,
        (fetchData s false (Except.ok d2) now).anomalyParams ≠ s.anomalyParams →
        ∃ r ∈ d2, s.seenRecordIds.contains r.id = false) := by
  have hnoop : ∀ d2 : List AnomalyRecord, newRecords s.seenRecordIds d2 = [] →
      fetchData s false (Except.ok d2) now = { s with loading := false } := by
    intro d2 h2
    have hcond : ¬((newRecords s.seenRecordIds d2).length > 0 ∨ false = true) := by
      simp [h2]
    rw [fetchData_eq]
    dsimp only
    rw [if_neg hcond]
  have hnil : newRecords s.seenRecordIds data = [] := by
    rw [newRecords, List.filter_eq_nil_iff]
    intro a ha
    rw [hall a ha]
    simp
  have hmain := hnoop data hnil
  refine ⟨by rw [hmain], by rw [hmain], by rw [hmain], by rw [hmain], ?_⟩
  intro d2 hne
  by_contra hforall
  push_neg at hforall
  have h2 : newRecords s.seenRecordIds d2 = [] := by
    rw [newRecords, List.filter_eq_nil_iff]
    intro a ha
    have ha2 := hforall a ha
    simp only [Bool.not_eq_false] at ha2
    rw [ha2]
    simp
  exact hne (by rw [hnoop d2 h2])

/-- Concrete instance of the all-seen no-op theorem: polling the already
seen id 1 changes nothing displayed. -/
theorem poll_all_seen_noop_witness :
    (fetchData ⟨[⟨1, 0, "x"⟩], false, none, TabId.anomaly, 2, none, some 9, [1], none, false⟩
        false (Except.ok [⟨1, 0, "x"⟩]) 42).seenRecordIds = [1]
    ∧ (fetchData ⟨[⟨1, 0, "x"⟩], false, none, TabId.anomaly, 2, none, some 9, [1], none, false⟩
        false (Except.ok [⟨1, 0, "x"⟩]) 42).lastDataUpdateTime = some 9 := by
  have h := poll_all_seen_noop
    ⟨[⟨1, 0, "x"⟩], false, none, TabId.anomaly, 2, none, some 9, [1], none, false⟩
    [⟨1, 0, "x"⟩] 42 (by decide)
  exact ⟨h.2.2.1, h.2.2.2.1⟩

/-- C6: The live log viewer's buffer is bounded at 100 records: starting
from the empty buffer, after any sequence of SSE events the retained list
is exactly the last 100 delivered records in delivery order (oldest
dropped first), hence never exceeds 100 entries. -/
theorem logviewer_buffer_bounded (f : String) (ce : Bool) (evs : List StreamEvent) :
    (processEvents ⟨[], f, ce⟩ evs).logs = lastN 100 (deliveredRecords evs)
    ∧ (processEvents ⟨[], f, ce⟩ evs).logs.length ≤ 100 := by
  have h := processEvents_logs_eq evs ⟨[], f, ce⟩ (by simp)
  simp only [List.nil_append] at h
  refine ⟨h, ?_⟩
  rw [h]
  exact lastN_length_le 100 (deliveredRecords evs)

/-- C7 counterexample: a received `ping` event whose payload fails to
parse as JSON (here the empty payload) does not clear the
connection-error indicator, so not every received ping marks the
connection alive. -/
theorem ping_malformed_keeps_error :
    ¬((processEvent ⟨[], "", true⟩ (StreamEvent.pingEvent "" none)).connectionError = false) := by
  simp [processEvent, handlePing]

/-- C7 (amended): every ping event leaves the retained log records
unchanged; a ping whose payload parses as JSON clears the connection-error
indicator; a ping whose payload fails to parse leaves the state entirely
unchanged. -/
theorem ping_frame_effect (s : LogViewerState) (d : String) (p : Option Nat) :
    (processEvent s (StreamEvent.pingEvent d p)).logs = s.logs
    ∧ (∀ t, p = some t → (processEvent s (StreamEvent.pingEvent d p)).connectionError = false)
    ∧ (p = none → processEvent s (StreamEvent.pingEvent d p) = s) := by
  refine ⟨?_, ?_, ?_⟩
  · cases p <;> rfl
  · intro t ht
    subst ht
    rfl
  · intro hp
    subst hp
    rfl

/-- Concrete instance of the amended ping theorem: a well-formed ping
clears the connection-error indicator. -/
theorem ping_frame_effect_witness :
    (processEvent ⟨[], "", true⟩ (StreamEvent.pingEvent "7" (some 7))).connectionError = false :=
  (ping_frame_effect ⟨[], "", true⟩ "7" (some 7)).2.1 7 rfl

/-- C8: A malformed `log` event — empty payload or failed JSON parse — is
skipped, not fatal: the handler leaves the state exactly unchanged, and
processing the remaining events proceeds as if the event had not
occurred. -/
theorem malformed_log_skipped (s : LogViewerState) (d : String) (p : Option LogData)
    (evs : List StreamEvent) (hmal : d = "" ∨ p = none) :
    processEvent s (StreamEvent.logEvent d p) = s
    ∧ processEvents s (StreamEvent.logEvent d p :: evs) = processEvents s evs := by
  have h1 : processEvent s (StreamEvent.logEvent d p) = s := by
    rcases hmal with h | h
    · subst h
      simp [processEvent, handleLogEvent]
    · subst h
      by_cases hd : d = "" <;> simp [processEvent, handleLogEvent, hd]
  refine ⟨h1, ?_⟩
  simp only [processEvents]
  rw [h1]

/-- Concrete instance of the malformed-log theorem: an empty `log` payload
leaves the state unchanged. -/
theorem malformed_log_skipped_witness :
    processEvent ⟨[], "", false⟩ (StreamEvent.logEvent "" none) = ⟨[], "", false⟩ :=
  (malformed_log_skipped ⟨[], "", false⟩ "" none [] (Or.inl rfl)).1

/-- C9: A rejected fetch is atomic with respect to displayed data: the
record list and the seen-id set are unchanged, the error is set to the
fixed failure text, and the retry count increases by exactly one; the next
fetch that takes the successful update branch resets it to zero. -/
theorem fetch_failure_atomic (s : AnomalyListState) (force : Bool) (now : Nat) :
    (fetchData s force (Except.error ()) now).anomalyParams = s.anomalyParams
    ∧ (fetchData s force (Except.error ()) now).seenRecordIds = s.seenRecordIds
    ∧ (fetchData s force (Except.error ()) now).error =
        some "Failed to load parameters. Please try again."
    ∧ (fetchData s force (Except.error ()) now).retryCount = s.retryCount + 1
    ∧ (∀ data, ((newRecords s.seenRecordIds data).length > 0 ∨ force = true) →
        (fetchData s force (Except.ok data) now).retryCount = 0) := by
  have herr : fetchData s force (Except.error ()) now =
      { s with
          loading := false
          error := some "Failed to load parameters. Please try again."
          retryCount := s.retryCount + 1 } := by
    rw [fetchData_eq]
  refine ⟨by rw [herr], by rw [herr], by rw [herr], by rw [herr], ?_⟩
  intro data hcond
  rw [fetchData_eq]
  dsimp only
  rw [if_pos hcond]

/-- Concrete instance of the fetch-failure theorem: from retry count 2 a
failure moves to 3 and a subsequent forced success resets to 0. -/
theorem fetch_failure_atomic_witness :
    (fetchData ⟨[], false, none, TabId.anomaly, 2, none, none, [], none, false⟩
        false (Except.error ()) 11).retryCount = 2 + 1
    ∧ (fetchData ⟨[], false, none, TabId.anomaly, 2, none, none, [], none, false⟩
        true (Except.ok []) 11).retryCount = 0 :=
  ⟨(fetch_failure_atomic ⟨[], false, none, TabId.anomaly, 2, none, none, [], none, false⟩
      false 11).2.2.2.1,
   (fetch_failure_atomic ⟨[], false, none, TabId.anomaly, 2, none, none, [], none, false⟩
      true 11).2.2.2.2 [] (Or.inr rfl)⟩

/-- C10: The log-viewer text filter is a pure view: the empty filter keeps
every record; a record passes the filter exactly when it is in the log
list and the filter is empty or the lower-cased filter string occurs
contiguously in the lower-cased JSON serialization of the record; and the
filtered list is a sublist of the untouched underlying log list. -/
theorem filter_pure_view (logs : List LogData) (f : String) :
    filterLogs logs "" = logs
    ∧ (∀ l, l ∈ filterLogs logs f ↔
        l ∈ logs ∧ (f = "" ∨ f.toLower.toList <:+: (jsonStringify l).toLower.toList))
    ∧ (filterLogs logs f).Sublist logs := by
  refine ⟨by simp [filterLogs], ?_, List.filter_sublist logs⟩
  intro l
  rw [filterLogs, List.mem_filter]
  constructor
  · rintro ⟨hl, hp⟩
    refine ⟨hl, ?_⟩
    by_cases hf : f = ""
    · exact Or.inl hf
    · right
      rw [if_neg hf] at hp
      rw [strIncludes] at hp
      exact (includesAux_iff _ _).mp hp
  · rintro ⟨hl, hor⟩
    refine ⟨hl, ?_⟩
    by_cases hf : f = ""
    · simp [hf]
    · rw [if_neg hf, strIncludes]
      rcases hor with hfe | hinf
      · exact absurd hfe hf
      · exact (includesAux_iff _ _).mpr hinf

end AnomalyDashboard
